import Mathlib

/-!
Verification of the DWEC SES13 profile-input pipeline.

Strings are modelled as lists of characters.  The pure text utilities
(cleanText, escapeHtml), the validators (validateName, validateEmail,
validateComment and the 255-character variant validarComment), the server
profile validation (validateProfile) and the profile endpoint are
translated from the JavaScript sources.  The vendor HTML sanitiser
libraries (sanitize-html on the server, DOMPurify on the client) are
external collaborators; the sanitiser is modelled from the spec, with the
allow-list policies taken from the configuration present in the sources.
-/

/-- The JavaScript whitespace class: the characters matched by the
whitespace class in regular expressions and removed by the trim method. -/
def wsChars : List Char :=
  [ ' ', '\t', '\n', '\r', '\x0b', '\x0c',
    '\u00A0', '\u1680', '\u2000', '\u2001', '\u2002', '\u2003', '\u2004',
    '\u2005', '\u2006', '\u2007', '\u2008', '\u2009', '\u200A',
    '\u2028', '\u2029', '\u202F', '\u205F', '\u3000', '\uFEFF']

/-- Whether a character is JavaScript whitespace. -/
def isWS (c : Char) : Bool := wsChars.contains c

/-- The trim method: drop leading and trailing JavaScript whitespace. -/
def jsTrim (l : List Char) : List Char :=
  ((l.dropWhile isWS).reverse.dropWhile isWS).reverse

/-- One global replace of maximal whitespace runs by a single space, as
done by the replace call in cleanText.  The flag records whether the
previous character belonged to a whitespace run that has already been
replaced by one space. -/
def collapseAux : Bool → List Char → List Char
  | _, [] => []
  | prev, c :: cs =>
    if isWS c then
      if prev then collapseAux true cs else ' ' :: collapseAux true cs
    else c :: collapseAux false cs

/-- Replace every maximal whitespace run by a single space. -/
def collapseWS (l : List Char) : List Char := collapseAux false l

/-- Body of cleanText, shared verbatim by the client file and server.js:
trim, then collapse each whitespace run to a single space. -/
def cleanText (l : List Char) : List Char := collapseWS (jsTrim l)

/-- The JavaScript values the pipeline distinguishes: null, undefined and
strings. -/
inductive JSVal where
  | null
  | undef
  | str (s : List Char)
deriving DecidableEq

/-- JavaScript string coercion on the modelled values: null and undefined
coerce to the four-letter and nine-letter literal texts, a string is
unchanged. -/
def jsString : JSVal → List Char
  | .null => "null".toList
  | .undef => "undefined".toList
  | .str s => s

/-- cleanText as defined in the first client definition and in server.js:
the argument is coerced with the String function before trimming, so any
value is accepted. -/
def cleanTextJS (v : JSVal) : List Char := cleanText (jsString v)

/-- The cleanText variant at part_000 line 515: it calls trim on the raw
value without the String coercion, so it is only defined on strings; on
null or undefined the method access raises. -/
def cleanTextNoCoerce : JSVal → Option (List Char)
  | .str s => some (cleanText s)
  | _ => none

/-- The idiom of coalescing with the empty string before coercion: null
and undefined become the empty string, a string is unchanged. -/
def jsCoalesce : JSVal → List Char
  | .null => []
  | .undef => []
  | .str s => s

/-- Entity text for the ampersand. -/
def ampEnt : List Char := "&amp;".toList

/-- Entity text for the less-than sign. -/
def ltEnt : List Char := "&lt;".toList

/-- Entity text for the greater-than sign. -/
def gtEnt : List Char := "&gt;".toList

/-- Entity text for the double quote. -/
def quotEnt : List Char := "&quot;".toList

/-- Entity text for the single quote. -/
def aposEnt : List Char := "&#039;".toList

/-- The single-quote character. -/
def aposChar : Char := Char.ofNat 39

/-- replaceAll with a single-character search string. -/
def rep1 (t : Char) (r : List Char) (l : List Char) : List Char :=
  l.flatMap fun c => if c = t then r else [c]

/-- escapeHtml from the client file: the five replaceAll calls in source
order, ampersand first. -/
def escapeHtml (l : List Char) : List Char :=
  rep1 aposChar aposEnt
    (rep1 '"' quotEnt
      (rep1 '>' gtEnt
        (rep1 '<' ltEnt
          (rep1 '&' ampEnt l))))

/-- The single-pass character table that the ordered replaceAll sequence
amounts to. -/
def escTable (c : Char) : List Char :=
  if c = '&' then ampEnt
  else if c = '<' then ltEnt
  else if c = '>' then gtEnt
  else if c = '"' then quotEnt
  else if c = aposChar then aposEnt
  else [c]

/-- The accented letters the name regular expression accepts besides the
ASCII letters. -/
def accentedChars : List Char := "ÁÉÍÓÚÜÑáéíóúüñ".toList

/-- Membership in the character class of the name regular expression:
ASCII letters, the fixed accented set, or whitespace. -/
def isNameChar (c : Char) : Bool :=
  ( 'A' ≤ c && c ≤ 'Z') || ( 'a' ≤ c && c ≤ 'z') ||
    accentedChars.contains c || isWS c

/-- The name regular expression: between 2 and 50 characters, all drawn
from the allowed class, anchored at both ends. -/
def nameMatches (l : List Char) : Bool :=
  decide (2 ≤ l.length) && decide (l.length ≤ 50) && l.all isNameChar

/-- Membership in the negated class of the email regular expression:
neither whitespace nor the at sign. -/
def isEmailChar (c : Char) : Bool := !isWS c && c != '@'

/-- The email regular expression, read as a decomposition: position i
holds the at sign with a nonempty local part before it, position j holds
a dot with at least one character between the at sign and the dot and at
least two characters after the dot, and every other character is neither
whitespace nor an at sign. -/
def emailMatches (l : List Char) : Bool :=
  (List.range l.length).any fun i =>
    (List.range l.length).any fun j =>
      decide (1 ≤ i) && decide (i + 2 ≤ j) && decide (j + 3 ≤ l.length) &&
        (l.getD i ' ' == '@') && (l.getD j ' ' == '.') &&
        ((List.range l.length).all fun k =>
          (k == i) || (k == j) || isEmailChar (l.getD k ' '))

/-- The toLowerCase method, restricted to the character repertoire this
code base works with: ASCII uppercase letters and the uppercase accented
set map to their lowercase forms, everything else is unchanged. -/
def jsToLowerChar (c : Char) : Char :=
  if 'A' ≤ c && c ≤ 'Z' then Char.ofNat (c.toNat + 32)
  else if c = 'Á' then 'á'
  else if c = 'É' then 'é'
  else if c = 'Í' then 'í'
  else if c = 'Ó' then 'ó'
  else if c = 'Ú' then 'ú'
  else if c = 'Ü' then 'ü'
  else if c = 'Ñ' then 'ñ'
  else c

/-- The toLowerCase method on a whole string. -/
def jsToLower (l : List Char) : List Char := l.map jsToLowerChar

/-- The uniform result shape every client validator returns. -/
structure VResult where
  ok : Bool
  value : List Char
  msg : String
deriving DecidableEq

/-- Client message: name required. -/
def msgNameReq : String := "El nombre es obligatorio."

/-- Client message: name pattern failure. -/
def msgNamePat : String := "Solo letras y espacios (2-50)."

/-- Client message: email required. -/
def msgEmailReq : String := "El email es obligatorio."

/-- Client message: email format failure. -/
def msgEmailBad : String := "Email no válido."

/-- Client message: comment too long. -/
def msgComLen : String := "Máximo 500 caracteres."

/-- Message of the 255-character variant: subject required. -/
def msgAsuntoReq : String := "El asunto es obligatorio"

/-- Message of the 255-character variant: subject too long. -/
def msgAsuntoLen : String := "Máximo 255 caracteres"

/-- The empty message carried by successful results. -/
def emptyMsg : String := ""

/-- validateName from the client file: clean first, then require the
value nonempty, then match the name regular expression. -/
def validateName (raw : JSVal) : VResult :=
  let value := cleanTextJS raw
  if value = [] then ⟨false, value, msgNameReq⟩
  else if !nameMatches value then ⟨false, value, msgNamePat⟩
  else ⟨true, value, emptyMsg⟩

/-- validateEmail from the client file: clean, lower-case, require the
value nonempty, then match the email regular expression. -/
def validateEmail (raw : JSVal) : VResult :=
  let value := jsToLower (cleanTextJS raw)
  if value = [] then ⟨false, value, msgEmailReq⟩
  else if !emailMatches value then ⟨false, value, msgEmailBad⟩
  else ⟨true, value, emptyMsg⟩

/-- validateComment from the client file: coalesce null and undefined to
the empty string, no cleaning, no emptiness requirement, only a
500-character cap on the raw length. -/
def validateComment (raw : JSVal) : VResult :=
  let value := jsCoalesce raw
  if 500 < value.length then ⟨false, value, msgComLen⟩
  else ⟨true, value, emptyMsg⟩

/-- validarComment, the 255-character variant at part_000 line 654: it
cleans first (through the coercion-free cleanText, hence string input),
requires the cleaned value to be nonempty, and caps it at 255
characters. -/
def validarComment (registro : List Char) : VResult :=
  let valor := cleanText registro
  if valor = [] then ⟨false, valor, msgAsuntoReq⟩
  else if 255 < valor.length then ⟨false, valor, msgAsuntoLen⟩
  else ⟨true, valor, emptyMsg⟩

/-- Example raw name input with repeated interior spaces. -/
def nameExRaw : List Char := "Ana   López".toList

/-- The cleaned form of the example name. -/
def nameExClean : List Char := "Ana López".toList

/-- Example name input rejected by the pattern. -/
def nameExBad : List Char := "Ana123".toList

/-- Example raw email input with stray spaces and uppercase letters. -/
def emailExRaw : List Char := "  ANA@MAIL.COM ".toList

/-- The cleaned, lower-cased form of the example email. -/
def emailExClean : List Char := "ana@mail.com".toList

/-- Example email input without a dotted extension. -/
def emailExBad : List Char := "ana@com".toList

/-- Exactly 500 repeated letters. -/
def xs500 : List Char := List.replicate 500 'x'

/-- Exactly 501 repeated letters. -/
def xs501 : List Char := List.replicate 501 'x'

/-- The JSON body of a profile request, as destructured by
validateProfile in server.js. -/
structure ProfileBody where
  name : JSVal
  email : JSVal
  comment : JSVal
deriving DecidableEq

/-- The per-field error object built by validateProfile: one optional
message per field. -/
structure ProfileErrors where
  name : Option String
  email : Option String
  comment : Option String
deriving DecidableEq

/-- The cleaned field values returned by validateProfile. -/
structure CleanedProfile where
  name : List Char
  email : List Char
  comment : List Char
deriving DecidableEq

/-- Server message: name required. -/
def msgSrvNameReq : String := "Nombre obligatorio"

/-- Server message: name pattern failure. -/
def msgSrvNameBad : String := "Nombre inválido (solo letras y espacios, 2-50)"

/-- Server message: email required. -/
def msgSrvEmailReq : String := "Email obligatorio"

/-- Server message: email format failure. -/
def msgSrvEmailBad : String := "Email inválido"

/-- Server message: comment too long. -/
def msgSrvComLen : String := "Comentario demasiado largo (máx. 500)"

/-- The name branch of validateProfile in server.js: clean the coalesced
field, then require it nonempty and matching the name regular
expression.  The error depends on the name field alone. -/
def srvNameError (v : JSVal) : Option String :=
  let n := cleanText (jsCoalesce v)
  if n = [] then some msgSrvNameReq
  else if !nameMatches n then some msgSrvNameBad
  else none

/-- The email branch of validateProfile in server.js: clean and
lower-case the coalesced field, then require it nonempty and matching
the email regular expression. -/
def srvEmailError (v : JSVal) : Option String :=
  let e := jsToLower (cleanText (jsCoalesce v))
  if e = [] then some msgSrvEmailReq
  else if !emailMatches e then some msgSrvEmailBad
  else none

/-- The comment branch of validateProfile in server.js: only a
500-character cap on the coalesced raw string. -/
def srvCommentError (v : JSVal) : Option String :=
  if 500 < (jsCoalesce v).length then some msgSrvComLen else none

/-- The result shape of validateProfile in server.js. -/
structure VPOut where
  ok : Bool
  cleaned : CleanedProfile
  errors : ProfileErrors
deriving DecidableEq

/-- validateProfile from server.js: all three field checks are evaluated
and collected into the errors object; ok holds exactly when the errors
object has no keys. -/
def validateProfile (b : ProfileBody) : VPOut :=
  { ok := (srvNameError b.name).isNone && (srvEmailError b.email).isNone
            && (srvCommentError b.comment).isNone
    cleaned := ⟨cleanText (jsCoalesce b.name),
                jsToLower (cleanText (jsCoalesce b.email)),
                jsCoalesce b.comment⟩
    errors := ⟨srvNameError b.name, srvEmailError b.email,
               srvCommentError b.comment⟩ }

/-- The saved object of a successful profile response. -/
structure SavedProfile where
  name : List Char
  email : List Char
  commentSanitized : List Char
deriving DecidableEq

/-- The observable profile response: HTTP status, the ok flag, the error
object of the failure branch, the saved object of the success branch. -/
structure ApiResp where
  status : Nat
  ok : Bool
  errors : Option ProfileErrors
  saved : Option SavedProfile
deriving DecidableEq

/-- A missing request body defaults to the empty object, whose three
fields read as undefined. -/
def emptyBody : ProfileBody := ⟨ .undef, .undef, .undef⟩

/-- The profile endpoint of server.js, parameterised by the sanitiser
applied to the cleaned comment: validate, answer 400 with the error
object when validation fails (the sanitiser is not consulted), otherwise
answer with the cleaned name and email and the sanitised comment. -/
def postProfile (san : List Char → List Char) (body : Option ProfileBody) :
    ApiResp :=
  let r := validateProfile (body.getD emptyBody)
  if r.ok then
    ⟨200, true, none,
      some ⟨r.cleaned.name, r.cleaned.email, san r.cleaned.comment⟩⟩
  else ⟨400, false, some r.errors, none⟩

/-- Whether the name field passes the server validation. -/
def nameFieldPasses (v : JSVal) : Bool :=
  !decide (cleanText (jsCoalesce v) = []) && nameMatches (cleanText (jsCoalesce v))

/-- Whether the email field passes the server validation. -/
def emailFieldPasses (v : JSVal) : Bool :=
  !decide (jsToLower (cleanText (jsCoalesce v)) = [])
    && emailMatches (jsToLower (cleanText (jsCoalesce v)))

/-- Whether the comment field passes the server validation. -/
def commentFieldPasses (v : JSVal) : Bool :=
  decide ((jsCoalesce v).length ≤ 500)

/-- Modelled from the spec: the vendor sanitiser libraries are external
collaborators, so an HTML fragment is modelled, following the spec, as a
tree of text nodes and elements carrying named attributes; parsing and
serialisation of concrete markup are outside the model. -/
inductive HNode where
  | text (s : List Char)
  | elem (tag : String) (attrs : List (String × List Char)) (children : List HNode)

/-- A sanitiser policy: the allow-listed tags, the allowed attribute
names per tag, the allowed URL schemes on the href attribute, and the
raw-text tags whose content is discarded together with the tag. -/
structure SanPolicy where
  allowedTags : List String
  allowedAttr : String → String → Bool
  allowedSchemes : List (List Char)
  dropContent : List String

/-- The name of the href attribute. -/
def hrefName : String := "href"

/-- Scheme of a URL value: the lower-cased text before the first colon,
or none for a scheme-less relative URL. -/
def schemeOf (v : List Char) : Option (List Char) :=
  match v.findIdx? (fun c => c == ':') with
  | none => none
  | some i => some (jsToLower (v.take i))

/-- Whether an attribute survives sanitisation under a policy: its name
must be allowed on the tag, and an href value must carry no scheme or an
allow-listed one. -/
def attrOk (p : SanPolicy) (tag : String) (a : String × List Char) : Bool :=
  p.allowedAttr tag a.1 &&
    ((a.1 != hrefName) ||
      (match schemeOf a.2 with
       | none => true
       | some s => p.allowedSchemes.contains s))

mutual

/-- Modelled from the spec: sanitisation keeps an allow-listed element
with filtered attributes and sanitised children, drops a disallowed
raw-text element together with its content, and otherwise drops only the
markup while keeping the sanitised children. -/
def sanitizeNode (p : SanPolicy) : HNode → List HNode
  | .text s => [.text s]
  | .elem t attrs cs =>
    if p.allowedTags.contains t then
      [.elem t (attrs.filter (attrOk p t)) (sanitizeNodes p cs)]
    else if p.dropContent.contains t then []
    else sanitizeNodes p cs

/-- Sanitisation of a list of sibling nodes. -/
def sanitizeNodes (p : SanPolicy) : List HNode → List HNode
  | [] => []
  | n :: ns => sanitizeNode p n ++ sanitizeNodes p ns
end

mutual

/-- Whether every element of a tree is allow-listed with conformant
attributes under a policy. -/
def nodeClean (p : SanPolicy) : HNode → Bool
  | .text _ => true
  | .elem t attrs cs =>
    p.allowedTags.contains t && attrs.all (attrOk p t) && nodesClean p cs

/-- Whether every element of a forest is allow-listed with conformant
attributes under a policy. -/
def nodesClean (p : SanPolicy) : List HNode → Bool
  | [] => true
  | n :: ns => nodeClean p n && nodesClean p ns
end

/-- The tag allow-list shared by both sanitiser configurations. -/
def allowedTagList : List String :=
  [ "b", "i", "em", "strong", "u", "p", "br", "ul", "ol", "li",
    "code", "pre", "a"]

/-- The attribute allow-list shared by both sanitiser configurations. -/
def anchorAttrList : List String := [ "href", "target", "rel"]

/-- The URL scheme allow-list. -/
def schemeList : List (List Char) :=
  [ "http".toList, "https".toList, "mailto".toList]

/-- The raw-text tags whose content is discarded along with the tag. -/
def dropContentList : List String := [ "script", "style", "textarea", "option"]

/-- The anchor tag name. -/
def aTag : String := "a"

/-- The sanitize-html policy configured in server.js: per-tag attribute
allow-list, only the anchor carries attributes. -/
def serverPolicy : SanPolicy :=
  { allowedTags := allowedTagList
    allowedAttr := fun tag attr => tag == aTag && anchorAttrList.contains attr
    allowedSchemes := schemeList
    dropContent := dropContentList }

/-- The DOMPurify policy configured in the client file: the attribute
allow-list is global, so the three names are allowed on every kept tag. -/
def clientPolicy : SanPolicy :=
  { allowedTags := allowedTagList
    allowedAttr := fun _ attr => anchorAttrList.contains attr
    allowedSchemes := schemeList
    dropContent := dropContentList }

/-- The script tag name. -/
def scriptTag : String := "script"

/-- The bold tag name. -/
def bTag : String := "b"

/-- The text inside the bold element of the running example. -/
def hiText : List Char := "hi".toList

/-- The text inside the script element of the running example. -/
def alertText : List Char := "alert(1)".toList

/-- The parsed form of the spec example input: a script element followed
by a bold element. -/
def xssExample : List HNode :=
  [ .elem scriptTag [] [.text alertText], .elem bTag [] [.text hiText]]

/-- The expected sanitised output of the example: the bold element with
its text, the script element and its content gone. -/
def xssSanitized : List HNode := [ .elem bTag [] [.text hiText]]

/-- Head-of-list whitespace test: the first character, if any, is not
whitespace. -/
def headNotWS : List Char → Bool
  | [] => true
  | c :: _ => !isWS c

/-- Last-of-list whitespace test: the last character, if any, is not
whitespace. -/
def lastNotWS : List Char → Bool
  | [] => true
  | [c] => !isWS c
  | _ :: c :: cs => lastNotWS (c :: cs)

/-- No two adjacent whitespace characters anywhere in the list. -/
def noWSRun : List Char → Bool
  | [] => true
  | [_] => true
  | c :: d :: t => !(isWS c && isWS d) && noWSRun (d :: t)

/-- Every whitespace character is a plain space and is followed by a
non-whitespace character. -/
def spacedOk : List Char → Bool
  | [] => true
  | c :: cs =>
    (if isWS c then (c == ' ') && headNotWS cs else true) && spacedOk cs

/-- The bold-tag example input for escaping. -/
def ltB : List Char := "<b>".toList

/-- The escaped form of the bold-tag example. -/
def escLtB : List Char := "&lt;b&gt;".toList

/-- A single less-than sign. -/
def ltOnly : List Char := "<".toList

/-- The doubly-escaped less-than sign: the entity text with its own
ampersand escaped again. -/
def ampLt : List Char := "&amp;lt;".toList

/-- After a collapse step with the flag set, the output never starts with
whitespace: a pending run emits no leading space. -/
theorem collapseAux_true_head (l : List Char) :
    headNotWS (collapseAux true l) = true := by
  induction l with
  | nil => rfl
  | cons c cs ih =>
    rw [collapseAux]
    cases h : isWS c with
    | true => simpa [h] using ih
    | false => simp [h, headNotWS]

/-- Collapsing preserves a non-whitespace first character. -/
theorem collapseAux_false_head (l : List Char) (h : headNotWS l = true) :
    headNotWS (collapseAux false l) = true := by
  cases l with
  | nil => rfl
  | cons c cs =>
    rw [collapseAux]
    have hc : isWS c = false := by simpa [headNotWS] using h
    simp [hc, headNotWS]

/-- The output of collapsing has all whitespace reduced to isolated
plain spaces. -/
theorem collapseAux_spacedOk (l : List Char) :
    ∀ b, spacedOk (collapseAux b l) = true := by
  induction l with
  | nil => intro b; rfl
  | cons c cs ih =>
    intro b
    rw [collapseAux]
    cases h : isWS c with
    | false => simp [h, spacedOk, ih false]
    | true =>
      cases b with
      | true => simpa using ih true
      | false =>
        show spacedOk ( ' ' :: collapseAux true cs) = true
        simp [spacedOk, collapseAux_true_head cs, ih true]

/-- Dropping the head preserves the last-character test on a list with at
least one remaining element. -/
theorem lastNotWS_cons (a : Char) (l : List Char) (h : l ≠ []) :
    lastNotWS (a :: l) = lastNotWS l := by
  cases l with
  | nil => exact absurd rfl h
  | cons c cs => rfl

/-- Collapsing preserves a non-whitespace last character and never
empties such a list. -/
theorem collapseAux_last (l : List Char) :
    ∀ b, lastNotWS l = true →
      lastNotWS (collapseAux b l) = true ∧ (l ≠ [] → collapseAux b l ≠ []) := by
  induction l with
  | nil => intro b _; exact ⟨rfl, fun h => absurd rfl h⟩
  | cons c cs ih =>
    intro b hl
    cases cs with
    | nil =>
      have hc : isWS c = false := by simpa [lastNotWS] using hl
      rw [collapseAux]
      simp [hc, lastNotWS]
    | cons d ds =>
      have hcs : lastNotWS (d :: ds) = true := by
        rw [lastNotWS_cons c (d :: ds) (by simp)] at hl; exact hl
      rw [collapseAux]
      cases h : isWS c with
      | false =>
        have h1 := ih false hcs
        have hne : collapseAux false (d :: ds) ≠ [] := h1.2 (by simp)
        simp only [h, Bool.false_eq_true, if_false]
        rw [lastNotWS_cons c _ hne]
        exact ⟨h1.1, fun _ => by simp⟩
      | true =>
        cases b with
        | true =>
          have h1 := ih true hcs
          simp only [h, if_true]
          exact ⟨h1.1, fun _ => h1.2 (by simp)⟩
        | false =>
          have h1 := ih true hcs
          have hne : collapseAux true (d :: ds) ≠ [] := h1.2 (by simp)
          refine ⟨?_, fun _ => ?_⟩
          · show lastNotWS ( ' ' :: collapseAux true (d :: ds)) = true
            rw [lastNotWS_cons ' ' _ hne]
            exact h1.1
          · show ' ' :: collapseAux true (d :: ds) ≠ []
            simp

/-- A list whose whitespace is already isolated plain spaces is a fixed
point of collapsing; with the flag set this additionally needs a
non-whitespace head. -/
theorem collapseAux_fix (l : List Char) (h : spacedOk l = true) :
    collapseAux false l = l ∧
      (headNotWS l = true → collapseAux true l = l) := by
  induction l with
  | nil => exact ⟨rfl, fun _ => rfl⟩
  | cons c cs ih =>
    simp only [spacedOk] at h
    cases hw : isWS c with
    | false =>
      have hcs : spacedOk cs = true := by
        simp only [hw] at h; simpa using h
      have := (ih hcs).1
      constructor
      · rw [collapseAux]; simp [hw, this]
      · intro _; rw [collapseAux]; simp [hw, this]
    | true =>
      simp only [hw, if_true, Bool.and_eq_true] at h
      obtain ⟨⟨hsp, hhd⟩, hcs⟩ := h
      have hc : c = ' ' := by simpa using hsp
      constructor
      · rw [collapseAux]
        simp only [hw, if_true]
        rw [(ih hcs).2 hhd, hc]
        exact rfl
      · intro hhead
        rw [headNotWS] at hhead
        simp [hw] at hhead

/-- After dropping leading whitespace, the head is not whitespace. -/
theorem dropWhile_isWS_head (l : List Char) :
    headNotWS (l.dropWhile isWS) = true := by
  induction l with
  | nil => rfl
  | cons c cs ih =>
    rw [List.dropWhile_cons]
    cases h : isWS c with
    | true => simpa [h] using ih
    | false => simp [h, headNotWS]

/-- A list with a non-whitespace head loses nothing to dropWhile. -/
theorem dropWhile_headNotWS_fix (l : List Char) (h : headNotWS l = true) :
    l.dropWhile isWS = l := by
  cases l with
  | nil => rfl
  | cons c cs =>
    have hc : isWS c = false := by simpa [headNotWS] using h
    rw [List.dropWhile_cons]
    simp [hc]

/-- The last-character test of an appended singleton is the test of that
character. -/
theorem lastNotWS_append_singleton (l : List Char) (c : Char) :
    lastNotWS (l ++ [c]) = !isWS c := by
  induction l with
  | nil => rfl
  | cons a l ih =>
    have hne : l ++ [c] ≠ [] := by simp
    rw [List.cons_append, lastNotWS_cons a _ hne]
    exact ih

/-- The last-character test of a reversal is the head test of the
original list. -/
theorem lastNotWS_reverse (l : List Char) :
    lastNotWS l.reverse = headNotWS l := by
  cases l with
  | nil => rfl
  | cons c cs =>
    rw [List.reverse_cons, lastNotWS_append_singleton]
    rfl

/-- The head test of a reversal is the last-character test of the
original list. -/
theorem headNotWS_reverse (l : List Char) :
    headNotWS l.reverse = lastNotWS l := by
  have h := lastNotWS_reverse l.reverse
  rw [List.reverse_reverse] at h
  exact h.symm

/-- Dropping leading whitespace preserves a non-whitespace last
character. -/
theorem lastNotWS_dropWhile (l : List Char) (h : lastNotWS l = true) :
    lastNotWS (l.dropWhile isWS) = true := by
  induction l with
  | nil => rfl
  | cons c cs ih =>
    rw [List.dropWhile_cons]
    cases hw : isWS c with
    | false => simpa [hw] using h
    | true =>
      simp only [hw, if_true]
      apply ih
      cases cs with
      | nil => rfl
      | cons d ds =>
        rw [lastNotWS_cons c (d :: ds) (by simp)] at h
        exact h

/-- Trimming leaves no leading whitespace. -/
theorem jsTrim_head (l : List Char) : headNotWS (jsTrim l) = true := by
  rw [jsTrim, headNotWS_reverse]
  apply lastNotWS_dropWhile
  rw [lastNotWS_reverse]
  exact dropWhile_isWS_head l

/-- Trimming leaves no trailing whitespace. -/
theorem jsTrim_last (l : List Char) : lastNotWS (jsTrim l) = true := by
  rw [jsTrim, lastNotWS_reverse]
  exact dropWhile_isWS_head _

/-- A list trimmed at both ends is a fixed point of trimming. -/
theorem jsTrim_fix (l : List Char) (h1 : headNotWS l = true)
    (h2 : lastNotWS l = true) : jsTrim l = l := by
  rw [jsTrim, dropWhile_headNotWS_fix l h1,
    dropWhile_headNotWS_fix l.reverse (by rw [headNotWS_reverse]; exact h2),
    List.reverse_reverse]

/-- The cleaned text has no leading whitespace. -/
theorem cleanText_head (l : List Char) : headNotWS (cleanText l) = true :=
  collapseAux_false_head _ (jsTrim_head l)

/-- The cleaned text has no trailing whitespace. -/
theorem cleanText_last (l : List Char) : lastNotWS (cleanText l) = true :=
  (collapseAux_last (jsTrim l) false (jsTrim_last l)).1

/-- The cleaned text has only isolated plain spaces as whitespace. -/
theorem cleanText_spacedOk (l : List Char) : spacedOk (cleanText l) = true :=
  collapseAux_spacedOk _ false

/-- Isolated whitespace implies no whitespace run of length two. -/
theorem spacedOk_noWSRun (l : List Char) (h : spacedOk l = true) :
    noWSRun l = true := by
  induction l with
  | nil => rfl
  | cons c cs ih =>
    simp only [spacedOk, Bool.and_eq_true] at h
    obtain ⟨hc, hcs⟩ := h
    cases cs with
    | nil => rfl
    | cons d ds =>
      rw [noWSRun]
      cases hw : isWS c with
      | false => simp [hw, ih hcs]
      | true =>
        simp only [hw, if_true, Bool.and_eq_true] at hc
        have hd : isWS d = false := by simpa [headNotWS] using hc.2
        simp [hw, hd, ih hcs]

/-- The cleaned text has no whitespace run of length two or more. -/
theorem cleanText_noWSRun (l : List Char) : noWSRun (cleanText l) = true :=
  spacedOk_noWSRun _ (cleanText_spacedOk l)

/-- Cleaning is idempotent. -/
theorem cleanText_idem (l : List Char) :
    cleanText (cleanText l) = cleanText l := by
  have h1 := cleanText_head l
  have h2 := cleanText_last l
  have h3 := cleanText_spacedOk l
  show collapseWS (jsTrim (cleanText l)) = cleanText l
  rw [jsTrim_fix _ h1 h2]
  exact (collapseAux_fix _ h3).1

/-- C9: for every input string, the output of the normaliser cleanText
(shared by the client file and server.js) has no leading or trailing
whitespace and contains no run of two or more whitespace characters, and
the normaliser is idempotent. -/
theorem cleanText_normalizer_invariants (l : List Char) :
    headNotWS (cleanText l) = true ∧ lastNotWS (cleanText l) = true ∧
      noWSRun (cleanText l) = true ∧ cleanText (cleanText l) = cleanText l :=
  ⟨cleanText_head l, cleanText_last l, cleanText_noWSRun l, cleanText_idem l⟩

/-- C9 witness at a concrete input with messy whitespace. -/
theorem cleanText_normalizer_invariants_witness :
    headNotWS (cleanText nameExRaw) = true ∧
      lastNotWS (cleanText nameExRaw) = true ∧
      noWSRun (cleanText nameExRaw) = true ∧
      cleanText (cleanText nameExRaw) = cleanText nameExRaw :=
  cleanText_normalizer_invariants nameExRaw

/-- C8 counterexample: the coercing normaliser applied to null does not
produce the empty string - the String coercion turns null into the
four-letter text before trimming, so cleanText of null is that text. -/
theorem cleanTextJS_null_not_empty : cleanTextJS JSVal.null ≠ [] := by
  decide

/-- C8 as amended: the coercing cleanText (first client definition and
server.js) accepts any modelled value and on strings is the plain
normaliser, producing the empty string for empty string input; null and
undefined are coerced to the literal texts of their names rather than to
the empty string; the variant at part_000 line 515 lacks the coercion,
is defined on strings only, and has no result on null or undefined. -/
theorem cleanText_totality_amended :
    (∀ s : List Char, cleanTextJS (JSVal.str s) = cleanText s) ∧
      cleanTextJS (JSVal.str []) = [] ∧
      cleanTextJS JSVal.null = "null".toList ∧
      cleanTextJS JSVal.undef = "undefined".toList ∧
      cleanTextNoCoerce JSVal.null = none ∧
      cleanTextNoCoerce JSVal.undef = none ∧
      (∀ s : List Char, cleanTextNoCoerce (JSVal.str s) = some (cleanText s)) :=
  ⟨fun s => rfl, by decide, by decide, by decide, rfl, rfl, fun s => rfl⟩

/-- A single-character replaceAll distributes over appending. -/
theorem rep1_append (t : Char) (r : List Char) (a b : List Char) :
    rep1 t r (a ++ b) = rep1 t r a ++ rep1 t r b := by
  simp [rep1]

/-- Escaping distributes over appending. -/
theorem escapeHtml_append (a b : List Char) :
    escapeHtml (a ++ b) = escapeHtml a ++ escapeHtml b := by
  simp [escapeHtml, rep1_append]

/-- Escaping a single character produces its table entry. -/
theorem escapeHtml_singleton (c : Char) : escapeHtml [c] = escTable c := by
  by_cases h1 : c = '&'
  · subst h1; decide
  · by_cases h2 : c = '<'
    · subst h2; decide
    · by_cases h3 : c = '>'
      · subst h3; decide
      · by_cases h4 : c = '"'
        · subst h4; decide
        · by_cases h5 : c = aposChar
          · subst h5; decide
          · simp [escapeHtml, rep1, escTable, h1, h2, h3, h4, h5]

/-- Escaping is the single-pass substitution given by the character
table. -/
theorem escapeHtml_eq_flatMap (l : List Char) :
    escapeHtml l = l.flatMap escTable := by
  induction l with
  | nil => rfl
  | cons c cs ih =>
    have h : (c :: cs) = [c] ++ cs := rfl
    rw [h, escapeHtml_append, escapeHtml_singleton, ih]
    simp

/-- C7: escapeHtml replaces every occurrence of the five special
characters by its entity; the ordered substitution sequence with the
ampersand first amounts to the single-pass character table, the bold-tag
example escapes as expected, and escaping an already-escaped string
re-escapes the introduced ampersand, so escaping is not idempotent. -/
theorem escapeHtml_spec :
    (∀ l : List Char, escapeHtml l = l.flatMap escTable) ∧
      escapeHtml ltB = escLtB ∧
      escapeHtml (escapeHtml ltOnly) = ampLt ∧
      escapeHtml (escapeHtml ltOnly) ≠ escapeHtml ltOnly :=
  ⟨escapeHtml_eq_flatMap, by decide, by decide, by decide⟩

/-- validateName on a string input unfolds to the three-way case split
of the source. -/
theorem validateName_unfold (raw : List Char) :
    validateName (JSVal.str raw) =
      (if cleanText raw = [] then ⟨false, cleanText raw, msgNameReq⟩
       else if !nameMatches (cleanText raw) then
         ⟨false, cleanText raw, msgNamePat⟩
       else ⟨true, cleanText raw, emptyMsg⟩) := rfl

/-- C4: validateName cleans first and returns the cleaned value; it
fails with the empty-field message when the cleaned value is empty,
fails with the pattern message unless the cleaned value is 2 to 50
characters of letters, the accented set and spaces, and succeeds
otherwise; the accented example cleans to a single interior space and
passes, the digit-bearing example fails the pattern. -/
theorem validateName_spec :
    (∀ raw : List Char, validateName (JSVal.str raw) =
      (if cleanText raw = [] then ⟨false, cleanText raw, msgNameReq⟩
       else if !nameMatches (cleanText raw) then
         ⟨false, cleanText raw, msgNamePat⟩
       else ⟨true, cleanText raw, emptyMsg⟩)) ∧
    (∀ raw : List Char, (validateName (JSVal.str raw)).ok =
      (!decide (cleanText raw = []) && nameMatches (cleanText raw))) ∧
    (∀ raw : List Char, (validateName (JSVal.str raw)).value = cleanText raw) ∧
    validateName (JSVal.str nameExRaw) = ⟨true, nameExClean, emptyMsg⟩ ∧
    validateName (JSVal.str nameExBad) = ⟨false, nameExBad, msgNamePat⟩ := by
  refine ⟨fun raw => rfl, fun raw => ?_, fun raw => ?_, by decide, by decide⟩
  · rw [validateName_unfold raw]
    by_cases h1 : cleanText raw = []
    · simp [h1]
    · by_cases h2 : nameMatches (cleanText raw) <;> simp [h1, h2]
  · rw [validateName_unfold raw]
    by_cases h1 : cleanText raw = []
    · simp [h1]
    · by_cases h2 : nameMatches (cleanText raw) <;> simp [h1, h2]

/-- validateEmail on a string input unfolds to the three-way case split
of the source. -/
theorem validateEmail_unfold (raw : List Char) :
    validateEmail (JSVal.str raw) =
      (if jsToLower (cleanText raw) = [] then
         ⟨false, jsToLower (cleanText raw), msgEmailReq⟩
       else if !emailMatches (jsToLower (cleanText raw)) then
         ⟨false, jsToLower (cleanText raw), msgEmailBad⟩
       else ⟨true, jsToLower (cleanText raw), emptyMsg⟩) := rfl

/-- C5: validateEmail cleans then lower-cases and returns that value; it
fails with the empty-field message when the value is empty, fails with
the format message unless the value decomposes as local part, at sign,
domain, dot and an extension of two or more characters with no
whitespace or extra at sign, and succeeds otherwise; the uppercase
example with stray spaces normalises and passes, the dotless example
fails. -/
theorem validateEmail_spec :
    (∀ raw : List Char, validateEmail (JSVal.str raw) =
      (if jsToLower (cleanText raw) = [] then
         ⟨false, jsToLower (cleanText raw), msgEmailReq⟩
       else if !emailMatches (jsToLower (cleanText raw)) then
         ⟨false, jsToLower (cleanText raw), msgEmailBad⟩
       else ⟨true, jsToLower (cleanText raw), emptyMsg⟩)) ∧
    (∀ raw : List Char, (validateEmail (JSVal.str raw)).ok =
      (!decide (jsToLower (cleanText raw) = []) &&
        emailMatches (jsToLower (cleanText raw)))) ∧
    (∀ raw : List Char,
      (validateEmail (JSVal.str raw)).value = jsToLower (cleanText raw)) ∧
    validateEmail (JSVal.str emailExRaw) = ⟨true, emailExClean, emptyMsg⟩ ∧
    validateEmail (JSVal.str emailExBad) = ⟨false, emailExBad, msgEmailBad⟩ := by
  refine ⟨fun raw => rfl, fun raw => ?_, fun raw => ?_, by decide, by decide⟩
  · rw [validateEmail_unfold raw]
    by_cases h1 : jsToLower (cleanText raw) = []
    · simp [h1]
    · by_cases h2 : emailMatches (jsToLower (cleanText raw)) <;> simp [h1, h2]
  · rw [validateEmail_unfold raw]
    by_cases h1 : jsToLower (cleanText raw) = []
    · simp [h1]
    · by_cases h2 : emailMatches (jsToLower (cleanText raw)) <;> simp [h1, h2]

/-- C6 counterexample: the 255-limit variant rejects the empty input even
though its length is within the limit, with the mandatory-field message,
so the claim that the comment validators impose no emptiness requirement
and accept every input within the limit fails on this variant. -/
theorem validarComment_empty_rejected :
    (validarComment ([] : List Char)).ok = false ∧
      (validarComment ([] : List Char)).msg = msgAsuntoReq ∧
      List.length ([] : List Char) ≤ 255 := by
  refine ⟨by decide, by decide, by decide⟩

/-- The length of the 500-letter example. -/
theorem xs500_length : xs500.length = 500 := by
  simp only [xs500, List.length_replicate]

/-- The length of the 501-letter example. -/
theorem xs501_length : xs501.length = 501 := by
  simp only [xs501, List.length_replicate]

/-- C6 as amended: the client validateComment imposes no emptiness
requirement and fails only with the length message when the raw length
exceeds 500, accepting exactly 500 characters and rejecting 501; the
255-limit variant validarComment normalises first, additionally rejects
an empty normalised value with the mandatory-field message, and
otherwise fails exactly when the normalised length exceeds 255. -/
theorem validateComment_spec :
    (∀ raw : List Char, validateComment (JSVal.str raw) =
      (if 500 < raw.length then ⟨false, raw, msgComLen⟩
       else ⟨true, raw, emptyMsg⟩)) ∧
    (∀ raw : List Char,
      (validateComment (JSVal.str raw)).ok = decide (raw.length ≤ 500)) ∧
    (validateComment (JSVal.str xs500)).ok = true ∧
    (validateComment (JSVal.str xs501)).ok = false ∧
    (validateComment (JSVal.str xs501)).msg = msgComLen ∧
    (∀ raw : List Char, validarComment raw =
      (if cleanText raw = [] then ⟨false, cleanText raw, msgAsuntoReq⟩
       else if 255 < (cleanText raw).length then
         ⟨false, cleanText raw, msgAsuntoLen⟩
       else ⟨true, cleanText raw, emptyMsg⟩)) ∧
    (∀ raw : List Char, (validarComment raw).ok =
      (!decide (cleanText raw = []) &&
        decide ((cleanText raw).length ≤ 255))) := by
  refine ⟨fun raw => rfl, fun raw => ?_, ?_, ?_, ?_, fun raw => rfl, fun raw => ?_⟩
  · simp only [validateComment, jsCoalesce]
    by_cases h : 500 < raw.length <;> simp [h] <;> omega
  · simp only [validateComment, jsCoalesce]
    rw [if_neg (by simp only [xs500_length]; omega : ¬ (500 < xs500.length))]
  · simp only [validateComment, jsCoalesce]
    rw [if_pos (by simp only [xs501_length]; omega : (500 < xs501.length))]
  · simp only [validateComment, jsCoalesce]
    rw [if_pos (by simp only [xs501_length]; omega : (500 < xs501.length))]
  · simp only [validarComment]
    by_cases h1 : cleanText raw = []
    · simp [h1]
    · by_cases h2 : 255 < (cleanText raw).length <;> simp [h1, h2] <;> omega

/-- The name error is absent exactly when the name field passes. -/
theorem srvNameError_isNone (v : JSVal) :
    (srvNameError v).isNone = nameFieldPasses v := by
  simp only [srvNameError, nameFieldPasses]
  by_cases h1 : cleanText (jsCoalesce v) = []
  · simp [h1]
  · by_cases h2 : nameMatches (cleanText (jsCoalesce v)) <;> simp [h1, h2]

/-- The email error is absent exactly when the email field passes. -/
theorem srvEmailError_isNone (v : JSVal) :
    (srvEmailError v).isNone = emailFieldPasses v := by
  simp only [srvEmailError, emailFieldPasses]
  by_cases h1 : jsToLower (cleanText (jsCoalesce v)) = []
  · simp [h1]
  · by_cases h2 : emailMatches (jsToLower (cleanText (jsCoalesce v))) <;>
      simp [h1, h2]

/-- The comment error is absent exactly when the comment field passes. -/
theorem srvCommentError_isNone (v : JSVal) :
    (srvCommentError v).isNone = commentFieldPasses v := by
  simp only [srvCommentError, commentFieldPasses]
  by_cases h : 500 < (jsCoalesce v).length <;> simp [h] <;> omega

/-- The endpoint answer as a single case split on the validation
outcome. -/
theorem postProfile_unfold (san : List Char → List Char)
    (body : Option ProfileBody) :
    postProfile san body =
      (if (validateProfile (body.getD emptyBody)).ok then
        ⟨200, true, none,
          some ⟨(validateProfile (body.getD emptyBody)).cleaned.name,
                (validateProfile (body.getD emptyBody)).cleaned.email,
                san (validateProfile (body.getD emptyBody)).cleaned.comment⟩⟩
      else ⟨400, false, some (validateProfile (body.getD emptyBody)).errors,
        none⟩) := rfl

/-- Status, ok flag and error object of the endpoint answer do not
depend on the sanitiser. -/
theorem postProfile_san_independent (san₁ san₂ : List Char → List Char)
    (body : Option ProfileBody) :
    (postProfile san₁ body).status = (postProfile san₂ body).status ∧
      (postProfile san₁ body).ok = (postProfile san₂ body).ok ∧
      (postProfile san₁ body).errors = (postProfile san₂ body).errors := by
  rw [postProfile_unfold san₁ body, postProfile_unfold san₂ body]
  by_cases h : (validateProfile (body.getD emptyBody)).ok <;> simp [h]

/-- C2: the profile endpoint evaluates all three fields - the error
object carries one message per failing field, each depending only on its
own field - and ok is the conjunction of the three per-field outcomes;
the answer is the 400 error response exactly when some field fails, in
which case the sanitiser is never consulted (the answer is the same for
any two sanitisers), and otherwise the 200 response carrying the cleaned
name, the cleaned email and the sanitised comment. -/
theorem profile_endpoint_spec :
    (∀ b : ProfileBody, (validateProfile b).errors =
      ⟨srvNameError b.name, srvEmailError b.email,
        srvCommentError b.comment⟩) ∧
    (∀ v : JSVal, (srvNameError v).isNone = nameFieldPasses v) ∧
    (∀ v : JSVal, (srvEmailError v).isNone = emailFieldPasses v) ∧
    (∀ v : JSVal, (srvCommentError v).isNone = commentFieldPasses v) ∧
    (∀ b : ProfileBody, (validateProfile b).ok =
      (nameFieldPasses b.name && emailFieldPasses b.email &&
        commentFieldPasses b.comment)) ∧
    (∀ (san : List Char → List Char) (body : Option ProfileBody),
      postProfile san body =
        (if (validateProfile (body.getD emptyBody)).ok then
          ⟨200, true, none,
            some ⟨(validateProfile (body.getD emptyBody)).cleaned.name,
                  (validateProfile (body.getD emptyBody)).cleaned.email,
                  san (validateProfile (body.getD emptyBody)).cleaned.comment⟩⟩
        else ⟨400, false,
          some (validateProfile (body.getD emptyBody)).errors, none⟩)) ∧
    (∀ (san₁ san₂ : List Char → List Char) (body : Option ProfileBody),
      (postProfile san₁ body).status = (postProfile san₂ body).status ∧
        (postProfile san₁ body).ok = (postProfile san₂ body).ok ∧
        (postProfile san₁ body).errors = (postProfile san₂ body).errors) := by
  refine ⟨fun b => rfl, srvNameError_isNone, srvEmailError_isNone,
    srvCommentError_isNone, fun b => ?_, postProfile_unfold,
    postProfile_san_independent⟩
  show ((srvNameError b.name).isNone && (srvEmailError b.email).isNone &&
    (srvCommentError b.comment).isNone) = _
  rw [srvNameError_isNone, srvEmailError_isNone, srvCommentError_isNone]

/-- C10: a request without a body is handled by replacing it with the
empty object, whose absent fields are coerced to the empty string, so
the endpoint answers 400 with the two mandatory-field messages and no
comment error instead of raising. -/
theorem postProfile_missing_body (san : List Char → List Char) :
    postProfile san none =
      ⟨400, false, some ⟨some msgSrvNameReq, some msgSrvEmailReq, none⟩,
        none⟩ := rfl

/-- Cleanliness of a forest splits over appending. -/
theorem nodesClean_append (p : SanPolicy) (a b : List HNode) :
    nodesClean p (a ++ b) = (nodesClean p a && nodesClean p b) := by
  induction a with
  | nil => simp [nodesClean]
  | cons n ns ih => simp [nodesClean, ih, Bool.and_assoc]

mutual

/-- Everything a sanitised node contains is allow-listed. -/
theorem sanitizeNode_clean (p : SanPolicy) (n : HNode) :
    nodesClean p (sanitizeNode p n) = true := by
  cases n with
  | text s => simp [sanitizeNode, nodesClean, nodeClean]
  | elem t attrs cs =>
    by_cases ht : t ∈ p.allowedTags
    · have hcs := sanitizeNodes_clean p cs
      have hall : (attrs.filter (attrOk p t)).all (attrOk p t) = true := by
        rw [List.all_eq_true]
        intro x hx
        exact (List.mem_filter.mp hx).2
      simp [sanitizeNode, nodesClean, nodeClean, ht, hcs, hall]
    · by_cases hd : t ∈ p.dropContent
      · simp [sanitizeNode, nodesClean, ht, hd]
      · have hcs := sanitizeNodes_clean p cs
        simp [sanitizeNode, ht, hd, hcs]

/-- Everything a sanitised forest contains is allow-listed. -/
theorem sanitizeNodes_clean (p : SanPolicy) (ns : List HNode) :
    nodesClean p (sanitizeNodes p ns) = true := by
  cases ns with
  | nil => simp [sanitizeNodes, nodesClean]
  | cons n ns2 =>
    rw [sanitizeNodes, nodesClean_append, sanitizeNode_clean p n,
      sanitizeNodes_clean p ns2]
    rfl

end

/-- Sanitisation distributes over appending. -/
theorem sanitizeNodes_append (p : SanPolicy) (a b : List HNode) :
    sanitizeNodes p (a ++ b) = sanitizeNodes p a ++ sanitizeNodes p b := by
  induction a with
  | nil => simp [sanitizeNodes]
  | cons n ns ih => simp [sanitizeNodes, ih]

/-- Filtering by the attribute test is idempotent. -/
theorem filter_attrOk_idem (p : SanPolicy) (t : String)
    (attrs : List (String × List Char)) :
    (attrs.filter (attrOk p t)).filter (attrOk p t) =
      attrs.filter (attrOk p t) := by
  induction attrs with
  | nil => rfl
  | cons a l ih =>
    by_cases h : attrOk p t a <;> simp [List.filter_cons, h, ih]

mutual

/-- Re-sanitising the output of a sanitised node changes nothing. -/
theorem sanitizeNode_idem (p : SanPolicy) (n : HNode) :
    sanitizeNodes p (sanitizeNode p n) = sanitizeNode p n := by
  cases n with
  | text s => simp [sanitizeNode, sanitizeNodes]
  | elem t attrs cs =>
    by_cases ht : t ∈ p.allowedTags
    · have hcs := sanitizeNodes_idem p cs
      simp [sanitizeNode, sanitizeNodes, ht, hcs, filter_attrOk_idem]
    · by_cases hd : t ∈ p.dropContent
      · simp [sanitizeNode, sanitizeNodes, ht, hd]
      · have hcs := sanitizeNodes_idem p cs
        simp [sanitizeNode, ht, hd, hcs]

/-- Re-sanitising a sanitised forest changes nothing. -/
theorem sanitizeNodes_idem (p : SanPolicy) (ns : List HNode) :
    sanitizeNodes p (sanitizeNodes p ns) = sanitizeNodes p ns := by
  cases ns with
  | nil => simp [sanitizeNodes]
  | cons n ns2 =>
    rw [show sanitizeNodes p (n :: ns2) =
          sanitizeNode p n ++ sanitizeNodes p ns2 from by rw [sanitizeNodes],
      sanitizeNodes_append, sanitizeNode_idem p n, sanitizeNodes_idem p ns2]

end

/-- C1: under both configured policies, every element the sanitiser
returns carries an allow-listed tag, only allowed attribute names - on
the server policy only the anchor keeps any attribute - and an href
value whose scheme, when present, is allow-listed; on the parsed spec
example the script element and its content are removed while the bold
element and its text survive. -/
theorem sanitize_allowlist_spec :
    (∀ ns : List HNode,
      nodesClean serverPolicy (sanitizeNodes serverPolicy ns) = true) ∧
    (∀ ns : List HNode,
      nodesClean clientPolicy (sanitizeNodes clientPolicy ns) = true) ∧
    sanitizeNodes serverPolicy xssExample = xssSanitized ∧
    sanitizeNodes clientPolicy xssExample = xssSanitized :=
  ⟨fun ns => sanitizeNodes_clean serverPolicy ns,
   fun ns => sanitizeNodes_clean clientPolicy ns, rfl, rfl⟩

/-- C3: both the server sanitiser policy and the client sanitiser policy
give an idempotent sanitiser - sanitising already-sanitised output
yields the same output for every input forest. -/
theorem sanitize_idempotent_spec :
    (∀ ns : List HNode,
      sanitizeNodes serverPolicy (sanitizeNodes serverPolicy ns) =
        sanitizeNodes serverPolicy ns) ∧
    (∀ ns : List HNode,
      sanitizeNodes clientPolicy (sanitizeNodes clientPolicy ns) =
        sanitizeNodes clientPolicy ns) :=
  ⟨fun ns => sanitizeNodes_idem serverPolicy ns,
   fun ns => sanitizeNodes_idem clientPolicy ns⟩
